import Mathlib

/-!
Verification of the ldapbench core against its natural-language specification.

The Go sources are shallowly embedded: pure functions become Lean functions,
stateful components (metrics counters, latency recorder, connection pool,
failure logger) become explicit state records with step functions, and
concurrent event interleavings become finite event traces folded over the
step functions.  Machine integers (Go `int`, `int64`, `time.Duration`) are
modelled as `Int` (counts that are provably non-negative use `Nat`);
overflow is out of scope for the claims considered.
-/

set_option autoImplicit false

namespace Ldapbench

/-! ## Metrics counters and the runner's single iteration
    (internal/metrics, internal/runner) -/

/-- The three counters of `metrics.Metrics` (atomic int64 in Go). The
start time is irrelevant to the counter claims and omitted. -/
structure Metrics where
  attempts : Int
  success : Int
  fail : Int
deriving Repr, DecidableEq

/-- `metrics.New`: all counters start at zero. -/
def Metrics.new : Metrics := ⟨0, 0, 0⟩

/-- `Metrics.Snapshot` projected to the three counters (elapsed time omitted). -/
def Metrics.snapshot (m : Metrics) : Int × Int × Int :=
  (m.attempts, m.success, m.fail)

/-- `config.Mode` is a Go string type. -/
def ModeAuth : String := "auth"

/-- `config.ModeSearch`. -/
def ModeSearch : String := "search"

/-- `config.ModeBoth`. -/
def ModeBoth : String := "both"

/-- The environment-supplied outcome of the network calls one iteration of
`Runner.runOnce` may make: whether `LookupDN`, `UserBind` and `UserSearch`
would fail if invoked.  This parameterises away the network. -/
structure Outcome where
  lookupErr : Bool
  bindErr : Bool
  searchErr : Bool
deriving Repr, DecidableEq

/-- `Runner.runOnce`, projected onto the metrics counters: increments
`Attempts` first, then follows exactly the branch structure of the Go
`switch` over the mode string, incrementing `Fail` on the failing call
(or on the unknown-mode default branch) and `Success` on full success.
The second component is the operation kind of the failure record enqueued
on that iteration, if any (the failure-logger side effect of the source). -/
def runOnce (mode : String) (o : Outcome) (m : Metrics) : Metrics × Option String :=
  let m := { m with attempts := m.attempts + 1 }
  if o.lookupErr then
    ({ m with fail := m.fail + 1 }, some "lookup")
  else if mode = ModeAuth then
    if o.bindErr then ({ m with fail := m.fail + 1 }, some "bind")
    else ({ m with success := m.success + 1 }, none)
  else if mode = ModeSearch then
    if o.searchErr then ({ m with fail := m.fail + 1 }, some "search")
    else ({ m with success := m.success + 1 }, none)
  else if mode = ModeBoth then
    if o.bindErr then ({ m with fail := m.fail + 1 }, some "bind")
    else if o.searchErr then ({ m with fail := m.fail + 1 }, some "search")
    else ({ m with success := m.success + 1 }, none)
  else
    ({ m with fail := m.fail + 1 }, none)

/-- A completed run: a finite sequence of fully resolved iterations, each
with its mode and environment outcome, folded over the metrics state. -/
def runAll (m : Metrics) : List (String × Outcome) → Metrics
  | [] => m
  | (mode, o) :: rest => runAll (runOnce mode o m).1 rest

/-! ## Filter substitution (internal/runner, Go fmt fragment) -/

/-- Does `p` match the front of `l`?  Models the substring scan used by Go
`strings.Contains`. -/
def matchesFront : List Char → List Char → Bool
  | [], _ => true
  | _ :: _, [] => false
  | p :: ps, c :: cs => p == c && matchesFront ps cs

/-- Go `strings.Contains(l, pat)` over character lists: does `pat` occur as
a contiguous substring of `l`? -/
def containsSub (pat : List Char) : List Char → Bool
  | [] => matchesFront pat []
  | c :: rest => matchesFront pat (c :: rest) || containsSub pat rest

/-- Go `strings.Contains(s, pat)`. -/
def strContains (s pat : String) : Bool :=
  containsSub pat.toList s.toList

/-- Modelled fragment of Go `fmt.Sprintf(format, arg)` with a single string
argument, as used by `Runner.prepareFilter`.  Covers single-character verbs
without flag/width/precision syntax (the only shapes that occur in LDAP
filter templates): `%s` consumes the argument on first use and renders
`%!s(MISSING)` once the argument is spent, `%%` renders a literal percent,
any other verb renders Go's bad-verb diagnostic `%!v(string=arg)` (and
consumes the argument) or `%!v(MISSING)`, a trailing lone percent renders
`%!(NOVERB)`, and an unconsumed argument appends `%!(EXTRA string=arg)`. -/
def sprintfAux (arg : List Char) : List Char → Bool → List Char
  | [], used =>
      if used then [] else "%!(EXTRA string=".toList ++ arg ++ [')']
  | c :: rest, used =>
      if c = '%' then
        match rest with
        | [] =>
            "%!(NOVERB)".toList ++ (if used then [] else "%!(EXTRA string=".toList ++ arg ++ [')'])
        | v :: vrest =>
            if v = '%' then '%' :: sprintfAux arg vrest used
            else if v = 's' then
              if used then "%!s(MISSING)".toList ++ sprintfAux arg vrest used
              else arg ++ sprintfAux arg vrest true
            else
              if used then '%' :: '!' :: v :: "(MISSING)".toList ++ sprintfAux arg vrest used
              else '%' :: '!' :: v :: "(string=".toList ++ arg ++ [')'] ++ sprintfAux arg vrest true
      else c :: sprintfAux arg rest used

/-- Go `fmt.Sprintf(format, arg)` for one string argument. -/
def sprintf1 (format arg : String) : String :=
  String.mk (sprintfAux arg.toList format.toList false)

/-- `Runner.prepareFilter`: substitute the username into the configured
filter via `fmt.Sprintf` when the filter contains `%s`, else return the
filter verbatim. -/
def prepareFilter (filter username : String) : String :=
  if strContains filter "%s" then sprintf1 filter username else filter

/-! ## Latency recorder (internal/metrics, part_008) -/

/-- `metrics.LatencyStats`: an immutable snapshot of latency metrics.
`time.Duration` values are modelled as `Int` (nanosecond counts). -/
structure LatencyStats where
  Count : Int
  Avg : Int
  P50 : Int
  P95 : Int
  P99 : Int
deriving Repr, DecidableEq

/-- Ascending insertion of an element into a sorted list. -/
def insertAsc (d : Int) : List Int → List Int
  | [] => [d]
  | x :: rest => if d ≤ x then d :: x :: rest else x :: insertAsc d rest

/-- Ascending sort; models the `sort.Slice(tmp, tmp[i] < tmp[j])` calls of
the source (on `Int` values any correct ascending sort yields this list). -/
def sortAsc : List Int → List Int
  | [] => []
  | x :: rest => insertAsc x (sortAsc rest)

/-- `metrics.percentile`: nearest-rank selection over an ascending-sorted
list.  The Go rank computation `int(float64(len(sorted)) * p)` is modelled
as `⌊len * p⌋` over `ℚ` (in the reachable branch `0 < p < 1` the product is
positive, where float truncation equals the floor). -/
def percentile (sorted : List Int) (p : ℚ) : Int :=
  if sorted.length = 0 then 0
  else if p ≤ 0 then sorted.getD 0 0
  else if 1 ≤ p then sorted.getD (sorted.length - 1) 0
  else
    if ⌊(sorted.length : ℚ) * p⌋ ≤ 0 then sorted.getD 0 0
    else if (sorted.length : ℤ) ≤ ⌊(sorted.length : ℚ) * p⌋ then
      sorted.getD (sorted.length - 1) 0
    else sorted.getD (⌊(sorted.length : ℚ) * p⌋).toNat 0

/-- `metrics.LatencyRecorder`: cumulative count/sum, the bounded reservoir
sample, its capacity, and the exact per-interval window.  Counts are `Nat`
(`int64` counters that never go negative; overflow out of scope). -/
structure LatencyRecorder where
  totalCount : Nat
  totalSum : Int
  sample : List Int
  cap : Nat
  window : List Int
deriving Repr, DecidableEq

/-- `metrics.NewLatencyRecorder`: negative capacities are clamped to 0;
all stores start empty. -/
def NewLatencyRecorder (capacity : Int) : LatencyRecorder :=
  { totalCount := 0, totalSum := 0, sample := [], cap := capacity.toNat, window := [] }

/-- `LatencyRecorder.Record`: bump the cumulative count and sum, apply the
reservoir-sampling replacement policy (the nondeterministic
`time.Now().UnixNano()` is the explicit `now` parameter), and append to the
current window. -/
def LatencyRecorder.Record (l : LatencyRecorder) (now : Nat) (d : Int) : LatencyRecorder :=
  let tc := l.totalCount + 1
  let sample :=
    if 0 < l.cap then
      if l.sample.length < l.cap then l.sample ++ [d]
      else
        let idx := now % tc
        if idx < l.cap then l.sample.set idx d else l.sample
    else l.sample
  { l with totalCount := tc, totalSum := l.totalSum + d,
           sample := sample, window := l.window ++ [d] }

/-- `LatencyRecorder.TotalSnapshot`: cumulative statistics; the average
guards against a zero count, percentiles come from a sorted copy of the
reservoir when it is non-empty (Go `int64` division truncates: `Int.tdiv`). -/
def LatencyRecorder.TotalSnapshot (l : LatencyRecorder) : LatencyStats :=
  let avg : Int := if 0 < l.totalCount then Int.tdiv l.totalSum l.totalCount else 0
  if l.sample.length = 0 then
    { Count := l.totalCount, Avg := avg, P50 := 0, P95 := 0, P99 := 0 }
  else
    let tmp := sortAsc l.sample
    { Count := l.totalCount, Avg := avg,
      P50 := percentile tmp (1/2), P95 := percentile tmp (95/100),
      P99 := percentile tmp (99/100) }

/-- `LatencyRecorder.WindowSnapshotAndReset`: under the recorder's mutex the
window is captured and cleared and exact statistics are computed from the
captured samples; an empty window yields the zero `LatencyStats`. -/
def LatencyRecorder.WindowSnapshotAndReset (l : LatencyRecorder) :
    LatencyStats × LatencyRecorder :=
  let n := l.window.length
  if n = 0 then ({ Count := 0, Avg := 0, P50 := 0, P95 := 0, P99 := 0 }, l)
  else
    let tmp := l.window
    let sum := tmp.foldl (· + ·) 0
    let avg := Int.tdiv sum (n : Int)
    let sorted := sortAsc tmp
    ({ Count := (n : Int), Avg := avg,
       P50 := percentile sorted (1/2), P95 := percentile sorted (95/100),
       P99 := percentile sorted (99/100) },
     { l with window := [] })

/-- An event of the latency recorder: one `Record` call (with the sampled
clock value) or one `WindowSnapshotAndReset` read. -/
inductive LatEvent where
  | meas (now : Nat) (d : Int)
  | snap
deriving Repr, DecidableEq

/-- Sequentialised trace semantics of the recorder (every operation runs
under the single mutex): returns the final state and the window snapshots
taken, in order. -/
def latRun (l : LatencyRecorder) : List LatEvent → LatencyRecorder × List LatencyStats
  | [] => (l, [])
  | .meas now d :: evs => latRun (l.Record now d) evs
  | .snap :: evs =>
      let p := l.WindowSnapshotAndReset
      let r := latRun p.2 evs
      (r.1, p.1 :: r.2)

/-- Number of `Record` events in a trace. -/
def countRecs : List LatEvent → Nat
  | [] => 0
  | .meas _ _ :: evs => countRecs evs + 1
  | .snap :: evs => countRecs evs

/-! ## Connection pool (internal/ldapclient/ldapclient.go) -/

/-- `ldapclient.New`'s pool-capacity computation:
`size := cfg.Concurrency * cfg.Connections; if size < 1 { size = 1 }`. -/
def poolSize (concurrency connections : Int) : Int :=
  let size := concurrency * connections
  if size < 1 then 1 else size

/-- The pool's observable state.  Handles (`*ldap.Conn`) are identified by
`Nat` ids; `buf` is the FIFO content of the buffered channel `c.pool`,
`next` the id the next successful dial returns (dials always produce brand
new handles), `closed` the ids on which `Close()` has been called. -/
structure PoolState where
  buf : List Nat
  next : Nat
  closed : List Nat
deriving Repr, DecidableEq

/-- A pool event: one `getConn` call (with the environment's verdict on
whether a dial would succeed) or one `putConn(handle, err)` call. -/
inductive PoolEvent where
  | acquire (dialOk : Bool)
  | release (h : Nat) (isErr : Bool)
deriving Repr, DecidableEq

/-- One pool operation.  `getConn`: non-blocking take from the channel
(FIFO head), else dial on demand (`none` when the dial fails).  `putConn`:
a non-nil error closes the handle and does not return it; otherwise a
non-blocking send returns it to the channel when there is space and closes
it when the channel is full.  The second component is `some result` for an
acquire. -/
def poolStep (cap : Nat) (s : PoolState) : PoolEvent → PoolState × Option (Option Nat)
  | .acquire dialOk =>
      match s.buf with
      | l :: rest => ({ s with buf := rest }, some (some l))
      | [] =>
          if dialOk then ({ s with next := s.next + 1 }, some (some s.next))
          else (s, some none)
  | .release h isErr =>
      if isErr then ({ s with closed := s.closed ++ [h] }, none)
      else if s.buf.length < cap then ({ s with buf := s.buf ++ [h] }, none)
      else ({ s with closed := s.closed ++ [h] }, none)

/-- Fold a trace of pool events; collects the results of the acquires. -/
def poolRun (cap : Nat) (s : PoolState) : List PoolEvent → PoolState × List (Option Nat)
  | [] => (s, [])
  | e :: evs =>
      let p := poolStep cap s e
      let r := poolRun cap p.1 evs
      (r.1, match p.2 with | some res => res :: r.2 | none => r.2)

/-! ## Failure logger (internal/fail, part_002) -/

/-- `fail.Record`: one failed attempt.  The timestamp is an abstract `Nat`. -/
structure Record where
  timestamp : Nat
  operation : String
  username : String
  dn : String
  filter : String
  error : String
deriving Repr, DecidableEq

/-- `fail.New`'s batch-size defaulting: `if batch <= 0 { batch = 256 }`. -/
def effBatch (batch : Int) : Int :=
  if batch ≤ 0 then 256 else batch

/-- The background consumer of `Logger.run`: buffering records for the next
flush after a successful open, draining-and-discarding after a failed open
of the persistence target, or terminated. -/
inductive Consumer where
  | writing (buf : List Record)
  | discarding
  | done
deriving Repr, DecidableEq

/-- Observable logger state: queue capacity (`cap(l.ch) = batch*4`), batch
size, channel content `q`, consumer state, and the batches flushed to the
CSV file so far (the header row is constant and omitted). -/
structure Logger where
  cap : Nat
  batch : Nat
  q : List Record
  cons : Consumer
  writes : List (List Record)
deriving Repr, DecidableEq

/-- `fail.New`: an empty path yields a nil logger; otherwise the queue is
created with capacity `effBatch batch * 4` and the consumer goroutine
starts, entering the buffering loop when the CSV file opens and the
drain-and-discard loop when the open fails (`openOk`). -/
def NewFailLogger (path : String) (batch : Int) (openOk : Bool) : Option Logger :=
  if path = "" then none
  else some { cap := (effBatch batch * 4).toNat, batch := (effBatch batch).toNat,
              q := [], cons := if openOk then .writing [] else .discarding,
              writes := [] }

/-- The non-blocking channel send of `Logger.Log`: enqueue when the
buffered channel has space, silently drop otherwise. -/
def logPush (cap : Nat) (q : List Record) (r : Record) : List Record :=
  if q.length < cap then q ++ [r] else q

/-- The consumer's `flush` closure: a non-empty buffer is written as one
batch, an empty buffer writes nothing. -/
def flushBuf (writes : List (List Record)) (buf : List Record) : List (List Record) :=
  if buf = [] then writes else writes ++ [buf]

/-- The shutdown drain of `Logger.run`: non-blocking receive until the
queue is empty, flushing whenever the buffer reaches the batch size, then
one final flush.  Returns the flushed batches in order. -/
def drainFlushes (batch : Nat) (buf : List Record) : List Record → List (List Record)
  | [] => flushBuf [] buf
  | r :: rest =>
      let buf' := buf ++ [r]
      if batch ≤ buf'.length then buf' :: drainFlushes batch [] rest
      else drainFlushes batch buf' rest

/-- A logger event: a producer's `Log` call, the consumer receiving one
queued record, the 2-second idle ticker firing, or `Close` closing the
stop channel. -/
inductive LogEvent where
  | logCall (r : Record)
  | recv
  | tick
  | stop
deriving Repr, DecidableEq

/-- One step of the logger system.  Producers always return immediately
(`logPush`).  A writing consumer buffers received records and flushes on a
full batch or on a tick; on the stop signal it drains the whole queue,
performs the final flush, and terminates.  A discarding consumer (failed
open) receives and drops records and reacts to nothing else — in
particular it ignores the stop signal, which the source's drain-only loop
never selects on.  A terminated consumer does nothing; the channel still
accepts sends. -/
def logStep (s : Logger) : LogEvent → Logger
  | .logCall r => { s with q := logPush s.cap s.q r }
  | .recv =>
      match s.cons, s.q with
      | .writing buf, r :: rest =>
          let buf' := buf ++ [r]
          if s.batch ≤ buf'.length then
            { s with q := rest, cons := .writing [], writes := s.writes ++ [buf'] }
          else
            { s with q := rest, cons := .writing buf' }
      | .discarding, _ :: rest => { s with q := rest }
      | _, _ => s
  | .tick =>
      match s.cons with
      | .writing buf => { s with cons := .writing [], writes := flushBuf s.writes buf }
      | _ => s
  | .stop =>
      match s.cons with
      | .writing buf =>
          { s with q := [], cons := .done,
                   writes := s.writes ++ drainFlushes s.batch buf s.q }
      | _ => s

/-- Fold a trace of logger events. -/
def logRun (s : Logger) : List LogEvent → Logger
  | [] => s
  | e :: evs => logRun (logStep s e) evs

/-- Number of producer `Log` calls in a trace. -/
def countLogCalls : List LogEvent → Nat
  | [] => 0
  | .logCall _ :: evs => countLogCalls evs + 1
  | _ :: evs => countLogCalls evs

/-- Records currently buffered inside the consumer. -/
def Consumer.bufLen : Consumer → Nat
  | .writing buf => buf.length
  | _ => 0

/-- `Logger.Close` returns once `l.wg.Wait()` observes that the consumer
goroutine has returned. -/
def closeReturns : Consumer → Bool
  | .done => true
  | _ => false

/-- `Logger.Log` on a possibly-nil `*Logger`: a nil receiver returns
immediately with no effect. -/
def LogMethod : Option Logger → Record → Option Logger
  | none, _ => none
  | some s, r => some (logStep s (.logCall r))

/-- `Logger.Close` on a possibly-nil `*Logger`: a nil receiver returns
immediately with no effect; otherwise the stop channel is closed and the
consumer observes the stop signal. -/
def CloseMethod : Option Logger → Option Logger
  | none => none
  | some s => some (logStep s .stop)

/-! ## Theorems -/

lemma runOnce_attempts (mode : String) (o : Outcome) (m : Metrics) :
    (runOnce mode o m).1.attempts = m.attempts + 1 := by
  unfold runOnce
  split_ifs <;> rfl

lemma runOnce_outcome (mode : String) (o : Outcome) (m : Metrics) :
    (runOnce mode o m).1.success + (runOnce mode o m).1.fail = m.success + m.fail + 1 := by
  unfold runOnce
  split_ifs <;> simp <;> ring

lemma runAll_inv (iters : List (String × Outcome)) :
    ∀ m : Metrics, m.attempts = m.success + m.fail →
      (runAll m iters).attempts = (runAll m iters).success + (runAll m iters).fail := by
  induction iters with
  | nil => intro m h; simpa [runAll] using h
  | cons it rest ih =>
      intro m h
      obtain ⟨mode, o⟩ := it
      simp only [runAll]
      apply ih
      have h1 := runOnce_attempts mode o m
      have h2 := runOnce_outcome mode o m
      omega

/-- Claim C1: each iteration of `runOnce` increments `Attempts` exactly once
at the start and, when it fully resolves, settles exactly one of
`Success`/`Fail` — under every mode string, including the unknown-mode
default branch; consequently `attempts = successes + failures` holds at
every snapshot of a completed run. -/
theorem attempts_eq_success_add_fail :
    (∀ (mode : String) (o : Outcome) (m : Metrics),
        (runOnce mode o m).1.attempts = m.attempts + 1 ∧
        (runOnce mode o m).1.success + (runOnce mode o m).1.fail
          = m.success + m.fail + 1) ∧
    (∀ iters : List (String × Outcome),
        (Metrics.snapshot (runAll Metrics.new iters)).1 =
          (Metrics.snapshot (runAll Metrics.new iters)).2.1 +
          (Metrics.snapshot (runAll Metrics.new iters)).2.2) := by
  refine ⟨fun mode o m => ⟨runOnce_attempts mode o m, runOnce_outcome mode o m⟩,
          fun iters => ?_⟩
  simpa [Metrics.snapshot] using runAll_inv iters Metrics.new (by simp [Metrics.new])

lemma matchesFront_self_append (p r : List Char) : matchesFront p (p ++ r) = true := by
  induction p with
  | nil => rfl
  | cons c cs ih => simp [matchesFront, ih]

lemma containsSub_of_matchesFront (pat l : List Char) (h : matchesFront pat l = true) :
    containsSub pat l = true := by
  cases l with
  | nil => simpa [containsSub] using h
  | cons c rest => simp [containsSub, h]

lemma containsSub_cons (pat : List Char) (c : Char) (l : List Char)
    (h : containsSub pat l = true) : containsSub pat (c :: l) = true := by
  simp [containsSub, h]

lemma containsSub_append_pat (pat l₁ l₂ : List Char) :
    containsSub pat (l₁ ++ pat ++ l₂) = true := by
  induction l₁ with
  | nil => simpa using containsSub_of_matchesFront _ _ (matchesFront_self_append pat l₂)
  | cons c cs ih => simpa using containsSub_cons _ c _ (by simpa using ih)

lemma sprintfAux_cons_ne (arg : List Char) (c : Char) (rest : List Char) (used : Bool)
    (hc : c ≠ '%') : sprintfAux arg (c :: rest) used = c :: sprintfAux arg rest used := by
  conv_lhs => rw [sprintfAux.eq_def]
  simp [hc]

lemma sprintfAux_no_pct (arg : List Char) (l : List Char)
    (h : ∀ c ∈ l, c ≠ '%') (rest : List Char) (used : Bool) :
    sprintfAux arg (l ++ rest) used = l ++ sprintfAux arg rest used := by
  induction l with
  | nil => simp
  | cons c cs ih =>
      have hc : c ≠ '%' := h c (by simp)
      rw [List.cons_append, sprintfAux_cons_ne arg c _ used hc,
          ih (fun x hx => h x (by simp [hx])), List.cons_append]

lemma sprintfAux_no_pct_used (arg l : List Char) (h : ∀ c ∈ l, c ≠ '%') :
    sprintfAux arg l true = l := by
  simpa [sprintfAux] using sprintfAux_no_pct arg l h [] true

lemma sprintfAux_pct_s (arg rest : List Char) :
    sprintfAux arg ('%' :: 's' :: rest) false = arg ++ sprintfAux arg rest true := by
  simp [sprintfAux]

lemma strToList_append (s t : String) : (s ++ t).toList = s.toList ++ t.toList := by
  cases s; cases t; rfl

lemma strMk_three (a b c : String) :
    String.mk (a.toList ++ (b.toList ++ c.toList)) = a ++ b ++ c := by
  cases a with | mk da =>
  cases b with | mk db =>
  cases c with | mk dc =>
  show String.mk (da ++ (db ++ dc)) = String.mk ((da ++ db) ++ dc)
  rw [List.append_assoc]

/-- Claim C2 (counterexample): `prepareFilter` does not replace every
occurrence of `%s` — with two placeholders the second renders as Go's
missing-argument diagnostic, not the username. -/
theorem prepareFilter_second_placeholder_not_replaced :
    prepareFilter "(a=%s)(b=%s)" "x" = "(a=x)(b=%!s(MISSING))" ∧
    prepareFilter "(a=%s)(b=%s)" "x" ≠ "(a=x)(b=x)" := by
  exact ⟨by decide, by decide⟩

/-- Claim C2 (amended): when the configured filter contains the placeholder
`%s` exactly once and no other percent character, `prepareFilter` returns
the filter with that one (first) occurrence replaced by the username; a
filter without the substring `%s` is returned unchanged for any
username. -/
theorem prepareFilter_first_occurrence (u f₁ f₂ : String)
    (h1 : ∀ c ∈ f₁.toList, c ≠ '%') (h2 : ∀ c ∈ f₂.toList, c ≠ '%') :
    prepareFilter (f₁ ++ "%s" ++ f₂) u = f₁ ++ u ++ f₂ ∧
    ∀ f : String, strContains f "%s" = false → prepareFilter f u = f := by
  constructor
  · have hcontains : strContains (f₁ ++ "%s" ++ f₂) "%s" = true := by
      unfold strContains
      rw [strToList_append, strToList_append]
      exact containsSub_append_pat _ _ _
    unfold prepareFilter
    rw [hcontains]
    simp only [if_true]
    unfold sprintf1
    rw [strToList_append, strToList_append, List.append_assoc]
    have hs : "%s".toList ++ f₂.toList = '%' :: 's' :: f₂.toList := rfl
    rw [hs, sprintfAux_no_pct u.toList f₁.toList h1, sprintfAux_pct_s,
        sprintfAux_no_pct_used u.toList f₂.toList h2]
    exact strMk_three f₁ u f₂
  · intro f hf
    unfold prepareFilter
    rw [hf]
    simp

/-- Witness for the amended claim C2 at the spec's own examples. -/
theorem prepareFilter_first_occurrence_check :
    prepareFilter ("(uid=" ++ "%s" ++ ")") "alice" = "(uid=" ++ "alice" ++ ")" ∧
    prepareFilter "(objectClass=person)" "alice" = "(objectClass=person)" :=
  ⟨(prepareFilter_first_occurrence "alice" "(uid=" ")" (by decide) (by decide)).1,
   (prepareFilter_first_occurrence "alice" "(uid=" ")" (by decide) (by decide)).2
     "(objectClass=person)" (by decide)⟩

lemma percentile_eq_clamped (l : List Int) (p : ℚ) (hne : l ≠ []) :
    percentile l p = l.getD (min (l.length - 1) (⌊(l.length : ℚ) * p⌋).toNat) 0 := by
  have hlen : 0 < l.length := List.length_pos.2 hne
  unfold percentile
  rw [if_neg (by omega)]
  by_cases hp0 : p ≤ 0
  · rw [if_pos hp0]
    have hfl : ⌊(l.length : ℚ) * p⌋ ≤ 0 :=
      Int.floor_nonpos (mul_nonpos_iff.2 (Or.inl ⟨by positivity, hp0⟩))
    rw [Int.toNat_of_nonpos hfl]
    simp
  · rw [if_neg hp0]
    push_neg at hp0
    by_cases hp1 : 1 ≤ p
    · rw [if_pos hp1]
      have hmul : (l.length : ℚ) ≤ (l.length : ℚ) * p :=
        le_mul_of_one_le_right (by positivity) hp1
      have hfl : (l.length : ℤ) ≤ ⌊(l.length : ℚ) * p⌋ := by
        rw [Int.le_floor]; exact_mod_cast hmul
      have hmin : l.length - 1 ≤ (⌊(l.length : ℚ) * p⌋).toNat := by omega
      rw [min_eq_left hmin]
    · rw [if_neg hp1]
      push_neg at hp1
      have hnn : (0 : ℤ) ≤ ⌊(l.length : ℚ) * p⌋ :=
        Int.floor_nonneg.2 (by positivity)
      have hlt : ⌊(l.length : ℚ) * p⌋ < l.length := by
        rw [Int.floor_lt]
        calc (l.length : ℚ) * p < (l.length : ℚ) * 1 := by
              exact mul_lt_mul_of_pos_left hp1 (by positivity)
          _ = ((l.length : ℤ) : ℚ) := by push_cast; ring
      by_cases hr0 : ⌊(l.length : ℚ) * p⌋ ≤ 0
      · rw [if_pos hr0]
        have : (⌊(l.length : ℚ) * p⌋).toNat = 0 := by omega
        rw [this]
        simp
      · rw [if_neg hr0, if_neg (by omega)]
        have : min (l.length - 1) (⌊(l.length : ℚ) * p⌋).toNat
            = (⌊(l.length : ℚ) * p⌋).toNat := by
          apply min_eq_right
          omega
        rw [this]

/-- Claim C4: for a sorted ascending non-empty list and any fraction `p`,
`percentile` returns the element at rank `⌊N·p⌋` clamped to `[0, N-1]`;
`p ≤ 0` yields the minimum and `1 ≤ p` the maximum. -/
theorem percentile_nearest_rank (l : List Int) (p : ℚ) (hne : l ≠ [])
    (hs : l.Sorted (· ≤ ·)) :
    percentile l p = l.getD (min (l.length - 1) (⌊(l.length : ℚ) * p⌋).toNat) 0 ∧
    percentile l p ∈ l ∧
    (p ≤ 0 → ∀ x ∈ l, percentile l p ≤ x) ∧
    (1 ≤ p → ∀ x ∈ l, x ≤ percentile l p) := by
  have hlen : 0 < l.length := List.length_pos.2 hne
  have hmain := percentile_eq_clamped l p hne
  have hidx : min (l.length - 1) (⌊(l.length : ℚ) * p⌋).toNat < l.length := by omega
  refine ⟨hmain, ?_, ?_, ?_⟩
  · rw [hmain, List.getD_eq_getElem l 0 hidx]
    exact List.getElem_mem hidx
  · intro hp0 x hx
    have hfl : ⌊(l.length : ℚ) * p⌋ ≤ 0 :=
      Int.floor_nonpos (mul_nonpos_iff.2 (Or.inl ⟨by positivity, hp0⟩))
    have hzero : min (l.length - 1) (⌊(l.length : ℚ) * p⌋).toNat = 0 := by omega
    rw [hmain, hzero, List.getD_eq_getElem l 0 hlen]
    obtain ⟨i, rfl⟩ := List.mem_iff_get.1 hx
    have := hs.rel_get_of_le (a := ⟨0, hlen⟩) (b := i) (by
      simp [Fin.le_def])
    simpa [List.get] using this
  · intro hp1 x hx
    have hmul : (l.length : ℚ) ≤ (l.length : ℚ) * p :=
      le_mul_of_one_le_right (by positivity) hp1
    have hfl : (l.length : ℤ) ≤ ⌊(l.length : ℚ) * p⌋ := by
      rw [Int.le_floor]; exact_mod_cast hmul
    have hlast : min (l.length - 1) (⌊(l.length : ℚ) * p⌋).toNat = l.length - 1 := by
      omega
    have hlt : l.length - 1 < l.length := by omega
    rw [hmain, hlast, List.getD_eq_getElem l 0 hlt]
    obtain ⟨i, rfl⟩ := List.mem_iff_get.1 hx
    have := hs.rel_get_of_le (a := i) (b := ⟨l.length - 1, hlt⟩) (by
      simp [Fin.le_def]
      omega)
    simpa [List.get] using this

/-- Witness for claim C4 at the spec's concrete samples `[1,2,3,4,5]`. -/
theorem percentile_nearest_rank_check :
    percentile ([1, 2, 3, 4, 5] : List Int) (1/2) = 3 ∧
    percentile ([1, 2, 3, 4, 5] : List Int) (99/100) = 5 := by
  constructor
  · have h := (percentile_nearest_rank [1, 2, 3, 4, 5] (1/2) (by decide) (by decide)).1
    simp only [List.length_cons, List.length_nil] at h
    norm_num at h
    exact h
  · have h := (percentile_nearest_rank [1, 2, 3, 4, 5] (99/100) (by decide) (by decide)).1
    simp only [List.length_cons, List.length_nil] at h
    norm_num at h
    exact h

lemma wsr_count (l : LatencyRecorder) :
    l.WindowSnapshotAndReset.1.Count = (l.window.length : Int) := by
  simp only [LatencyRecorder.WindowSnapshotAndReset]
  split_ifs with h
  · simp [h]
  · rfl

lemma wsr_window (l : LatencyRecorder) :
    l.WindowSnapshotAndReset.2.window = [] := by
  simp only [LatencyRecorder.WindowSnapshotAndReset]
  split_ifs with h
  · exact List.length_eq_zero.1 h
  · rfl

lemma record_window (l : LatencyRecorder) (now : Nat) (d : Int) :
    (l.Record now d).window = l.window ++ [d] := by
  simp [LatencyRecorder.Record]

lemma latRun_counts (evs : List LatEvent) :
    ∀ l : LatencyRecorder,
      ((latRun l evs).2.map LatencyStats.Count).sum
          + ((latRun l evs).1.window.length : Int)
        = (l.window.length : Int) + (countRecs evs : Int) := by
  induction evs with
  | nil => intro l; simp [latRun, countRecs]
  | cons e evs ih =>
      intro l
      cases e with
      | meas now d =>
          simp only [latRun, countRecs]
          rw [ih]
          rw [record_window]
          push_cast
          simp [List.length_append]
          ring
      | snap =>
          simp only [latRun, countRecs, List.map_cons, List.sum_cons]
          rw [wsr_count]
          have h := ih l.WindowSnapshotAndReset.2
          rw [wsr_window] at h
          simp only [List.length_nil, Nat.cast_zero, zero_add] at h
          rw [add_assoc, h]

/-- Claim C5: `WindowSnapshotAndReset` captures and clears the window: a
second call with no interleaved `Record` returns `Count = 0`, the
post-call window is always empty, and over any trace of operations every
recorded sample is counted by at most one window read (the snapshot counts
plus the still-pending window add up to exactly the number of records). -/
theorem window_reset_no_double_count :
    (∀ l : LatencyRecorder,
        (l.WindowSnapshotAndReset.2.WindowSnapshotAndReset).1.Count = 0) ∧
    (∀ l : LatencyRecorder, l.WindowSnapshotAndReset.2.window = []) ∧
    (∀ (capacity : Int) (evs : List LatEvent),
        ((latRun (NewLatencyRecorder capacity) evs).2.map LatencyStats.Count).sum
            + ((latRun (NewLatencyRecorder capacity) evs).1.window.length : Int)
          = (countRecs evs : Int)) := by
  refine ⟨fun l => ?_, wsr_window, fun capacity evs => ?_⟩
  · rw [wsr_count, wsr_window]
    rfl
  · have h := latRun_counts evs (NewLatencyRecorder capacity)
    simpa [NewLatencyRecorder] using h

/-- Claim C10: `percentile` on the empty sequence returns the zero duration
for every `p`, and `TotalSnapshot` with zero recorded samples returns the
all-zero `LatencyStats` (the zero-count division is guarded). -/
theorem percentile_empty_totalSnapshot_zero :
    (∀ p : ℚ, percentile [] p = 0) ∧
    (∀ capacity : Int,
        (NewLatencyRecorder capacity).TotalSnapshot = ⟨0, 0, 0, 0, 0⟩) := by
  constructor
  · intro p
    simp [percentile]
  · intro capacity
    simp [NewLatencyRecorder, LatencyRecorder.TotalSnapshot]

lemma poolStep_preserves (cap : Nat) (s : PoolState) (h : Nat) (e : PoolEvent)
    (hb : h ∉ s.buf) (hn : h < s.next) (he : e ≠ .release h false) :
    h ∉ (poolStep cap s e).1.buf ∧ h < (poolStep cap s e).1.next ∧
    ∀ res : Option Nat, (poolStep cap s e).2 = some res → res ≠ some h := by
  cases e with
  | acquire ok =>
      cases hbuf : s.buf with
      | cons a rest =>
          rw [hbuf] at hb
          refine ⟨?_, ?_, ?_⟩
          · simp [poolStep, hbuf]
            exact fun hmem => hb (List.mem_cons_of_mem a hmem)
          · simpa [poolStep, hbuf] using hn
          · intro res hres
            simp [poolStep, hbuf] at hres
            subst hres
            intro hcontra
            exact hb (by simp [← Option.some_inj.1 hcontra])
      | nil =>
          by_cases hok : ok
          · refine ⟨by simp [poolStep, hbuf, hok], by simp [poolStep, hbuf, hok]; omega, ?_⟩
            intro res hres
            simp [poolStep, hbuf, hok] at hres
            subst hres
            simp
            omega
          · refine ⟨by simp [poolStep, hbuf, hok, hb], by simpa [poolStep, hbuf, hok] using hn, ?_⟩
            intro res hres
            simp [poolStep, hbuf, hok] at hres
            subst hres
            simp
  | release g isErr =>
      by_cases herr : isErr
      · refine ⟨by simpa [poolStep, herr] using hb, by simpa [poolStep, herr] using hn, ?_⟩
        intro res hres
        simp [poolStep, herr] at hres
      · have hg : g ≠ h := by
          intro hgh
          apply he
          have hfalse : isErr = false := Bool.eq_false_iff.2 herr
          rw [hgh, hfalse]
        by_cases hfull : s.buf.length < cap
        · refine ⟨?_, by simpa [poolStep, herr, hfull] using hn, ?_⟩
          · simp [poolStep, herr, hfull]
            exact ⟨hb, fun hcontra => hg hcontra.symm⟩
          · intro res hres
            simp [poolStep, herr, hfull] at hres
        · refine ⟨by simpa [poolStep, herr, hfull] using hb,
                  by simpa [poolStep, herr, hfull] using hn, ?_⟩
          intro res hres
          simp [poolStep, herr, hfull] at hres

lemma poolRun_no_tainted (cap : Nat) (h : Nat) (evs : List PoolEvent) :
    ∀ s : PoolState, h ∉ s.buf → h < s.next →
      (∀ e ∈ evs, e ≠ .release h false) →
      some h ∉ (poolRun cap s evs).2 := by
  induction evs with
  | nil => intro s _ _ _; simp [poolRun]
  | cons e evs ih =>
      intro s hb hn hevs
      have he : e ≠ .release h false := hevs e (by simp)
      obtain ⟨hb', hn', hres⟩ := poolStep_preserves cap s h e hb hn he
      have htail := ih (poolStep cap s e).1 hb' hn' (fun x hx => hevs x (by simp [hx]))
      simp only [poolRun]
      cases hsnd : (poolStep cap s e).2 with
      | none => simpa [hsnd] using htail
      | some res =>
          have hner : res ≠ some h := hres res hsnd
          simp [hsnd]
          exact ⟨fun hcontra => hner hcontra.symm, htail⟩

/-- Claim C6: `putConn` with a non-nil operation error closes the handle
immediately and leaves the idle buffer unchanged, and — the handle being
closed and never re-released — no subsequent `getConn` over any event
trace ever returns it: acquires yield only pooled or freshly dialed
handles. -/
theorem release_error_taints (cap : Nat) (s : PoolState) (h : Nat)
    (hb : h ∉ s.buf) (hn : h < s.next) (evs : List PoolEvent)
    (hevs : ∀ e ∈ evs, e ≠ PoolEvent.release h false) :
    (poolStep cap s (.release h true)).1.buf = s.buf ∧
    h ∈ (poolStep cap s (.release h true)).1.closed ∧
    some h ∉ (poolRun cap (poolStep cap s (.release h true)).1 evs).2 := by
  refine ⟨by simp [poolStep], by simp [poolStep], ?_⟩
  apply poolRun_no_tainted cap h evs
  · simpa [poolStep] using hb
  · simpa [poolStep] using hn
  · exact hevs

/-- Witness for claim C6 on a concrete pool trace. -/
theorem release_error_taints_check :
    (poolStep 1 ⟨[], 1, []⟩ (.release 0 true)).1.buf = PoolState.buf ⟨[], 1, []⟩ ∧
    0 ∈ (poolStep 1 ⟨[], 1, []⟩ (.release 0 true)).1.closed ∧
    some 0 ∉ (poolRun 1 (poolStep 1 ⟨[], 1, []⟩ (.release 0 true)).1
        [.acquire true, .release 5 true, .acquire true]).2 :=
  release_error_taints 1 ⟨[], 1, []⟩ 0 (by decide) (by decide)
    [.acquire true, .release 5 true, .acquire true] (by decide)

lemma poolStep_buf_le (cap : Nat) (s : PoolState) (e : PoolEvent)
    (hle : s.buf.length ≤ cap) : (poolStep cap s e).1.buf.length ≤ cap := by
  cases e with
  | acquire ok =>
      cases hbuf : s.buf with
      | cons a rest =>
          rw [hbuf] at hle
          simp [poolStep, hbuf] at hle ⊢
          omega
      | nil =>
          by_cases hok : ok <;> simp [poolStep, hbuf, hok]
  | release g isErr =>
      by_cases herr : isErr
      · simpa [poolStep, herr] using hle
      · by_cases hfull : s.buf.length < cap
        · simp [poolStep, herr, hfull]
          omega
        · simpa [poolStep, herr, hfull] using hle

lemma poolRun_buf_le (cap : Nat) (evs : List PoolEvent) :
    ∀ s : PoolState, s.buf.length ≤ cap → (poolRun cap s evs).1.buf.length ≤ cap := by
  induction evs with
  | nil => intro s hle; simpa [poolRun] using hle
  | cons e evs ih =>
      intro s hle
      simp only [poolRun]
      exact ih _ (poolStep_buf_le cap s e hle)

/-- Claim C7: the pool is created with capacity
`concurrency × connections` clamped below by 1, and the idle buffer never
exceeds the capacity over any event trace: releasing error-free into a
full buffer leaves the buffer unchanged and closes the handle instead. -/
theorem pool_capacity_bound :
    (∀ concurrency connections : Int,
        poolSize concurrency connections = max 1 (concurrency * connections)) ∧
    (∀ (cap : Nat) (evs : List PoolEvent) (s : PoolState), s.buf.length ≤ cap →
        (poolRun cap s evs).1.buf.length ≤ cap) ∧
    (∀ (cap : Nat) (s : PoolState) (g : Nat), s.buf.length = cap →
        (poolStep cap s (.release g false)).1.buf = s.buf ∧
        g ∈ (poolStep cap s (.release g false)).1.closed) := by
  refine ⟨fun c k => ?_, fun cap evs s hle => poolRun_buf_le cap evs s hle,
          fun cap s g hfull => ?_⟩
  · by_cases hlt : c * k < 1
    · simp [poolSize, hlt]
      omega
    · simp [poolSize, hlt]
      omega
  · have hnot : ¬ s.buf.length < cap := by omega
    exact ⟨by simp [poolStep, hnot], by simp [poolStep, hnot]⟩

/-- Witness for claim C7 on a concrete full pool. -/
theorem pool_capacity_bound_check :
    poolSize 32 1 = max 1 (32 * 1) ∧
    (poolRun 1 ⟨[7], 9, []⟩ [.release 8 false, .release 6 false]).1.buf.length ≤ 1 ∧
    ((poolStep 1 ⟨[7], 9, []⟩ (.release 8 false)).1.buf = PoolState.buf ⟨[7], 9, []⟩ ∧
      8 ∈ (poolStep 1 ⟨[7], 9, []⟩ (.release 8 false)).1.closed) :=
  ⟨pool_capacity_bound.1 32 1,
   pool_capacity_bound.2.1 1 [.release 8 false, .release 6 false] ⟨[7], 9, []⟩ (by decide),
   pool_capacity_bound.2.2 1 ⟨[7], 9, []⟩ 8 (by decide)⟩

lemma flushBuf_flatten (writes : List (List Record)) (buf : List Record) :
    (flushBuf writes buf).flatten = writes.flatten ++ buf := by
  unfold flushBuf
  split_ifs with h
  · simp [h]
  · simp

lemma drainFlushes_flatten (batch : Nat) (q : List Record) :
    ∀ buf : List Record, (drainFlushes batch buf q).flatten = buf ++ q := by
  induction q with
  | nil =>
      intro buf
      simpa [drainFlushes] using flushBuf_flatten [] buf
  | cons r rest ih =>
      intro buf
      simp only [drainFlushes]
      split_ifs with h
      · simp [ih]
      · rw [ih (buf ++ [r])]
        simp

lemma logStep_discard (s : Logger) (e : LogEvent) (h : s.cons = .discarding) :
    (logStep s e).cons = .discarding ∧ (logStep s e).writes = s.writes := by
  cases e with
  | logCall r => simp [logStep, h]
  | recv =>
      cases hq : s.q with
      | nil => simp [logStep, h, hq]
      | cons a rest => simp [logStep, h, hq]
  | tick => simp [logStep, h]
  | stop => simp [logStep, h]

lemma logRun_discard (evs : List LogEvent) :
    ∀ s : Logger, s.cons = .discarding →
      (logRun s evs).cons = .discarding ∧ (logRun s evs).writes = s.writes := by
  induction evs with
  | nil => intro s h; exact ⟨h, rfl⟩
  | cons e evs ih =>
      intro s h
      obtain ⟨h1, h2⟩ := logStep_discard s e h
      obtain ⟨h1', h2'⟩ := ih (logStep s e) h1
      exact ⟨h1', h2'.trans h2⟩

/-- Claim C3: on the shutdown signal a consumer that opened its target
drains the whole queue, appends every buffered and queued record to the
persisted output via the batch flushes plus final flush, and terminates so
`Close` returns; a consumer whose target failed to open discards every
record over any trace — it never writes and never blocks producers (the
`Log` step is total and state-preserving on the writes). -/
theorem consumer_drain_and_degrade :
    (∀ (s : Logger) (buf : List Record), s.cons = .writing buf →
        (logStep s .stop).cons = .done ∧
        (logStep s .stop).q = [] ∧
        (logStep s .stop).writes.flatten = s.writes.flatten ++ buf ++ s.q ∧
        closeReturns (logStep s .stop).cons = true) ∧
    (∀ (s : Logger) (evs : List LogEvent), s.cons = .discarding →
        (logRun s evs).cons = .discarding ∧ (logRun s evs).writes = s.writes) := by
  constructor
  · intro s buf hcons
    refine ⟨by simp [logStep, hcons], by simp [logStep, hcons], ?_,
            by simp [logStep, hcons, closeReturns]⟩
    simp only [logStep, hcons]
    rw [List.flatten_append, drainFlushes_flatten]
    simp [List.append_assoc]
  · exact fun s evs h => logRun_discard evs s h

/-- Witness for claim C3 on a concrete logger state. -/
theorem consumer_drain_and_degrade_check :
    ((logStep ⟨8, 2, [⟨1, "bind", "u2", "dn2", "", "e2"⟩], .writing [⟨0, "lookup", "u", "", "", "e"⟩], []⟩ .stop).cons = .done ∧
     (logStep ⟨8, 2, [⟨1, "bind", "u2", "dn2", "", "e2"⟩], .writing [⟨0, "lookup", "u", "", "", "e"⟩], []⟩ .stop).q = [] ∧
     (logStep ⟨8, 2, [⟨1, "bind", "u2", "dn2", "", "e2"⟩], .writing [⟨0, "lookup", "u", "", "", "e"⟩], []⟩ .stop).writes.flatten
       = List.flatten [] ++ [⟨0, "lookup", "u", "", "", "e"⟩] ++ [⟨1, "bind", "u2", "dn2", "", "e2"⟩] ∧
     closeReturns (logStep ⟨8, 2, [⟨1, "bind", "u2", "dn2", "", "e2"⟩], .writing [⟨0, "lookup", "u", "", "", "e"⟩], []⟩ .stop).cons = true) ∧
    ((logRun ⟨8, 2, [], .discarding, []⟩ [.logCall ⟨0, "lookup", "u", "", "", "e"⟩, .recv, .tick, .stop]).cons = .discarding ∧
     (logRun ⟨8, 2, [], .discarding, []⟩ [.logCall ⟨0, "lookup", "u", "", "", "e"⟩, .recv, .tick, .stop]).writes = []) :=
  ⟨consumer_drain_and_degrade.1 _ [⟨0, "lookup", "u", "", "", "e"⟩] rfl,
   consumer_drain_and_degrade.2 ⟨8, 2, [], .discarding, []⟩
     [.logCall ⟨0, "lookup", "u", "", "", "e"⟩, .recv, .tick, .stop] rfl⟩

lemma logStep_measure (s : Logger) (e : LogEvent) :
    (logStep s e).writes.flatten.length + (logStep s e).cons.bufLen + (logStep s e).q.length
      ≤ s.writes.flatten.length + s.cons.bufLen + s.q.length
          + countLogCalls [e] := by
  obtain ⟨cap, batch, q, cons, writes⟩ := s
  cases e with
  | logCall r =>
      simp only [logStep, countLogCalls]
      unfold logPush
      split_ifs with h
      · simp
        omega
      · simp
  | recv =>
      cases cons with
      | writing buf =>
          cases q with
          | nil => simp [logStep, Consumer.bufLen, countLogCalls]
          | cons a rest =>
              simp only [logStep, countLogCalls]
              split_ifs with h
              · simp [Consumer.bufLen, List.flatten_append]
                omega
              · simp [Consumer.bufLen]
                omega
      | discarding =>
          cases q with
          | nil => simp [logStep, countLogCalls]
          | cons a rest => simp [logStep, countLogCalls, Consumer.bufLen]
      | done =>
          cases q with
          | nil => simp [logStep, countLogCalls]
          | cons a rest => simp [logStep, countLogCalls]
  | tick =>
      cases cons with
      | writing buf =>
          simp only [logStep, countLogCalls, Consumer.bufLen]
          rw [flushBuf_flatten]
          simp [Consumer.bufLen]
      | discarding => simp [logStep, countLogCalls]
      | done => simp [logStep, countLogCalls]
  | stop =>
      cases cons with
      | writing buf =>
          simp only [logStep, countLogCalls, Consumer.bufLen]
          rw [List.flatten_append, drainFlushes_flatten]
          simp [Consumer.bufLen]
          omega
      | discarding => simp [logStep, countLogCalls]
      | done => simp [logStep, countLogCalls]

lemma logRun_measure (evs : List LogEvent) :
    ∀ s : Logger,
      (logRun s evs).writes.flatten.length + (logRun s evs).cons.bufLen
          + (logRun s evs).q.length
        ≤ s.writes.flatten.length + s.cons.bufLen + s.q.length + countLogCalls evs := by
  induction evs with
  | nil => intro s; simp [logRun, countLogCalls]
  | cons e evs ih =>
      intro s
      have h1 := logStep_measure s e
      have h2 := ih (logStep s e)
      have hcount : countLogCalls (e :: evs) = countLogCalls [e] + countLogCalls evs := by
        cases e <;> simp [countLogCalls]
        omega
      simp only [logRun]
      omega

/-- Claim C8 (counterexample): `fail.New` with configured batch size 0
builds a queue of capacity 1024 (4 × the defaulted 256), not 4 × 0 = 0. -/
theorem queue_capacity_default_counterexample :
    (NewFailLogger "x" 0 true).map Logger.cap = some 1024 ∧ (1024 : Nat) ≠ 4 * 0 := by
  constructor
  · rfl
  · decide

/-- Claim C8 (amended): the queue capacity is exactly 4 × the effective
batch size — the configured batch when it is ≥ 1 (a non-positive
configured batch defaults to 256); `Log` never blocks (it adds at most one
record and leaves a full queue unchanged), and over every event trace the
number of persisted records never exceeds the number of `Log` calls. -/
theorem queue_capacity_and_backpressure (batch : Int) (hb : 1 ≤ batch) :
    (∀ (path : String) (ok : Bool), path ≠ "" →
        (NewFailLogger path batch ok).map Logger.cap = some (4 * batch).toNat) ∧
    (∀ (cap : Nat) (q : List Record) (r : Record),
        (logPush cap q r).length ≤ q.length + 1 ∧
        (¬ q.length < cap → logPush cap q r = q)) ∧
    (∀ (path : String) (ok : Bool) (s : Logger) (evs : List LogEvent),
        NewFailLogger path batch ok = some s →
        (logRun s evs).writes.flatten.length ≤ countLogCalls evs) := by
  refine ⟨fun path ok hpath => ?_, fun cap q r => ?_, fun path ok s evs hnew => ?_⟩
  · have heff : effBatch batch = batch := by
      unfold effBatch
      rw [if_neg (by omega)]
    simp [NewFailLogger, if_neg hpath, heff, mul_comm]
  · constructor
    · unfold logPush
      split_ifs with h
      · simp
      · simp
    · intro h
      unfold logPush
      rw [if_neg h]
  · have hs : s.writes = [] ∧ s.cons.bufLen = 0 ∧ s.q = [] := by
      unfold NewFailLogger at hnew
      by_cases hp : path = ""
      · rw [if_pos hp] at hnew
        cases hnew
      · rw [if_neg hp] at hnew
        have hrec := Option.some.inj hnew
        subst hrec
        cases ok <;> simp [Consumer.bufLen]
    have hm := logRun_measure evs s
    rw [hs.1, hs.2.2] at hm
    rw [hs.2.1] at hm
    simp only [List.flatten_nil, List.length_nil] at hm
    omega

/-- Witness for the amended claim C8 with configured batch 2. -/
theorem queue_capacity_and_backpressure_check :
    (NewFailLogger "f" 2 true).map Logger.cap = some (4 * 2 : Int).toNat ∧
    ((logPush 0 [] ⟨0, "lookup", "u", "", "", "e"⟩).length ≤ 0 + 1 ∧
      (¬ (0 : Nat) < 0 → logPush 0 [] ⟨0, "lookup", "u", "", "", "e"⟩ = [])) ∧
    (logRun ⟨8, 2, [], .writing [], []⟩
        [.logCall ⟨0, "lookup", "u", "", "", "e"⟩, .recv, .stop]).writes.flatten.length
      ≤ countLogCalls [.logCall ⟨0, "lookup", "u", "", "", "e"⟩, .recv, .stop] :=
  ⟨(queue_capacity_and_backpressure 2 (by decide)).1 "f" true (by decide),
   (queue_capacity_and_backpressure 2 (by decide)).2.1 0 [] ⟨0, "lookup", "u", "", "", "e"⟩,
   (queue_capacity_and_backpressure 2 (by decide)).2.2 "f" true ⟨8, 2, [], .writing [], []⟩
     [.logCall ⟨0, "lookup", "u", "", "", "e"⟩, .recv, .stop] rfl⟩

/-- Claim C9: `fail.New` returns nil for an empty path, and `Log` and
`Close` on a nil logger return immediately with no effect. -/
theorem nil_logger_noop :
    (∀ (batch : Int) (ok : Bool), NewFailLogger "" batch ok = none) ∧
    (∀ r : Record, LogMethod none r = none) ∧
    CloseMethod none = none :=
  ⟨fun _ _ => rfl, fun _ => rfl, rfl⟩

end Ldapbench
